import Mathlib

/-!
Verification of the node-selection core of `core/dbt/graph/selector.py`.

The data model (manifest members, the dependency graph, selection specs) and
the evaluator (`NodeSelector`) are embedded as executable Lean definitions.
Pure fragments of the Python become Lean functions over `Finset UniqueId`;
the logger side channel becomes an explicit list of structured `LogEvent`s;
the one exception path (`InvalidSelectorException` from `get_method`) becomes
an `Option` result.  Iteration over a Python `set` is modelled by folding over
an enumeration list; the canonical enumeration used by the set-level wrappers
is the sorted order, while order-sensitive lemmas quantify over arbitrary
enumerations.
-/

/-- Unique identifiers of graph members.  The spec treats them as opaque
stable keys whose only required operations are equality and hashing; they are
modelled as natural numbers so that concrete instances evaluate inside the
kernel. -/
abbrev UniqueId := Nat

/-- Resource types of manifest nodes (`dbt.node_types.NodeType`). -/
inductive NodeType where
  | Model
  | Test
  | Source
  | Exposure
  | Seed
  | Snapshot
  | Analysis
  deriving DecidableEq, Repr

/-- Node configuration: only the `enabled` flag is read by the selector. -/
structure NodeConfig where
  enabled : Bool
  deriving DecidableEq, Repr

/-- The `depends_on` attribute of a manifest node: its direct parents. -/
structure DependsOn where
  nodes : List UniqueId
  deriving DecidableEq, Repr

/-- A compiled manifest node, restricted to the fields the selector reads. -/
structure ManifestNode where
  resource_type : NodeType
  depends_on : DependsOn
  empty : Bool
  config : NodeConfig
  name : String
  deriving DecidableEq, Repr

/-- A source definition; the selector reads only `config.enabled`. -/
structure SourceDefn where
  config : NodeConfig
  deriving DecidableEq, Repr

/-- Modelled from the spec: the data model gives every graph member (exposures
included) an `enabled` flag; the exposure type itself is not under `src/`. -/
structure ExposureDefn where
  config : NodeConfig
  deriving DecidableEq, Repr

/-- The manifest: three keyed collections, modelled as association lists
(Python dicts keyed by unique id). -/
structure Manifest where
  nodes : List (UniqueId × ManifestNode)
  sources : List (UniqueId × SourceDefn)
  exposures : List (UniqueId × ExposureDefn)
  deriving DecidableEq, Repr

/-- A graph member value, as handed to `node_is_match`. -/
inductive GraphMember where
  | node (n : ManifestNode)
  | source (s : SourceDefn)
  | exposure (e : ExposureDefn)
  deriving DecidableEq, Repr

/-- Modelled from the spec: the dependency graph (module `.graph`, not under
`src/`) is an immutable directed graph; an edge `(p, c)` runs from parent `p`
to child `c`. -/
structure Graph where
  nodeSet : Finset UniqueId
  edges : Finset (UniqueId × UniqueId)
  deriving DecidableEq

/-- `Graph.nodes()`: all member ids. -/
def Graph.nodes (g : Graph) : Finset UniqueId := g.nodeSet

/-- Modelled from the spec: `subgraph(ids)` is the induced subgraph containing
exactly the given ids and the edges between them. -/
def Graph.subgraph (g : Graph) (members : Finset UniqueId) : Graph :=
  { nodeSet := g.nodeSet ∩ members
    edges := g.edges.filter (fun e => e.1 ∈ members ∧ e.2 ∈ members) }

/-- One-hop parents of a set of ids, within the graph's node set. -/
def Graph.parentsOf (g : Graph) (s : Finset UniqueId) : Finset UniqueId :=
  g.nodeSet.filter (fun p => ∃ c ∈ s, (p, c) ∈ g.edges)

/-- One-hop children of a set of ids, within the graph's node set. -/
def Graph.childrenOf (g : Graph) (s : Finset UniqueId) : Finset UniqueId :=
  g.nodeSet.filter (fun c => ∃ p ∈ s, (p, c) ∈ g.edges)

/-- Iterated one-hop expansion: everything reachable from `frontier` in at
most `n` applications of `step`, excluding the frontier itself unless it is
reached again. -/
def Graph.expandWithin (step : Finset UniqueId → Finset UniqueId) :
    Finset UniqueId → Nat → Finset UniqueId
  | _, 0 => ∅
  | frontier, n + 1 =>
      step frontier ∪ Graph.expandWithin step (frontier ∪ step frontier) n

/-- Modelled from the spec: `select_parents(ids, depth?)` returns all
ancestors reachable within `depth` hops (unbounded if omitted). -/
def Graph.select_parents (g : Graph) (s : Finset UniqueId) (depth : Option Nat) :
    Finset UniqueId :=
  Graph.expandWithin g.parentsOf s (depth.getD g.nodeSet.card)

/-- Modelled from the spec: `select_children(ids, depth?)` returns all
descendants reachable within `depth` hops (unbounded if omitted). -/
def Graph.select_children (g : Graph) (s : Finset UniqueId) (depth : Option Nat) :
    Finset UniqueId :=
  Graph.expandWithin g.childrenOf s (depth.getD g.nodeSet.card)

/-- Modelled from the spec: `select_childrens_parents(ids)` returns the
parents of the children of `ids` (siblings-via-shared-child pattern). -/
def Graph.select_childrens_parents (g : Graph) (s : Finset UniqueId) :
    Finset UniqueId :=
  g.select_parents (g.select_children s none) none

/-- `select_successors(ids)`: the one-hop-forward frontier used by expansion. -/
def Graph.select_successors (g : Graph) (s : Finset UniqueId) : Finset UniqueId :=
  g.childrenOf s

/-- The set-algebra operator of a composite selection spec. -/
inductive SetOperator where
  | Union
  | Intersection
  | Difference
  deriving DecidableEq, Repr

/-- Modelled from the spec: `spec.combined` folds a list of sets with the
composite's operator — union, intersection, or left-associative difference
(first list element minus the rest). -/
def SetOperator.combined : SetOperator → List (Finset UniqueId) → Finset UniqueId
  | SetOperator.Union, sets => sets.foldl (fun a b => a ∪ b) ∅
  | SetOperator.Intersection, [] => ∅
  | SetOperator.Intersection, s :: rest => rest.foldl (fun a b => a ∩ b) s
  | SetOperator.Difference, [] => ∅
  | SetOperator.Difference, s :: rest => rest.foldl (fun a b => a \ b) s

/-- A leaf selection criterion (`SelectionCriteria` in `selector_spec.py`). -/
structure SelectionCriteria where
  method : String
  method_arguments : List (String × String)
  value : String
  childrens_parents : Bool
  parents : Bool
  parents_depth : Option Nat
  children : Bool
  children_depth : Option Nat
  greedy : Bool
  expect_exists : Bool
  raw : String
  deriving DecidableEq, Repr

/-- A selection spec: a leaf criterion or a composite combining children with
a set operator. -/
inductive SelectionSpec where
  | criteria (c : SelectionCriteria)
  | composite (op : SetOperator) (components : List SelectionSpec)
      (expect_exists : Bool) (raw : String)

/-- Structured stand-ins for the messages the Python code sends to the
logger / `warn_or_error`. -/
inductive LogEvent where
  | invalidSelector (method : String) (raw : String) (valid : List String)
  | noNodesMatched (raw : String)
  | unusedNodes (names : List String)
  deriving DecidableEq, Repr

/-- Modelled from the spec: the Method Matcher Registry maps a method name to
a matcher; a matcher, given a candidate id and the pattern value, decides
membership in the matching subset. -/
structure MethodRegistry where
  methods : List (String × (UniqueId → String → Bool))

/-- `get_method`: look up a matcher by name; `none` models
`InvalidSelectorException`. -/
def MethodRegistry.get_method (r : MethodRegistry) (method : String) :
    Option (UniqueId → String → Bool) :=
  r.methods.lookup method

/-- `SELECTOR_METHODS`: the valid method names. -/
def MethodRegistry.selectorMethods (r : MethodRegistry) : List String :=
  r.methods.map Prod.fst

/-- `can_select_indirectly`: only Test nodes qualify for indirect selection. -/
def can_select_indirectly (node : ManifestNode) : Bool :=
  if node.resource_type = NodeType.Test then true else false

/-- `alert_non_existence(raw_spec, nodes)`: warn when the node set is empty. -/
def alert_non_existence (raw_spec : String) (nodes : Finset UniqueId) :
    List LogEvent :=
  if nodes.card = 0 then [LogEvent.noNodesMatched raw_spec] else []

/-- `alert_unused_nodes`: report the names of filtered-out indirect nodes.
The Python indexes `manifest.nodes[unique_id]`; ids absent from the node
collection would raise there, which the claims never exercise. -/
def alert_unused_nodes (m : Manifest) (filtered_unused_nodes : List UniqueId) :
    LogEvent :=
  LogEvent.unusedNodes
    (filtered_unused_nodes.filterMap
      (fun uid => (m.nodes.lookup uid).map (fun n => n.name)))

/-- `set(node.depends_on.nodes) <= set(selected)` as a boolean test. -/
def depends_on_subset (node : ManifestNode) (selected : Finset UniqueId) : Bool :=
  node.depends_on.nodes.all (fun p => decide (p ∈ selected))

/-- The condition under which `expand_selection` adds a successor directly. -/
def expand_direct_cond (m : Manifest) (selected : Finset UniqueId)
    (greedy : Bool) (uid : UniqueId) : Bool :=
  match m.nodes.lookup uid with
  | some node => can_select_indirectly node && (greedy || depends_on_subset node selected)
  | none => false

/-- The condition under which `expand_selection` defers a successor. -/
def expand_indirect_cond (m : Manifest) (selected : Finset UniqueId)
    (greedy : Bool) (uid : UniqueId) : Bool :=
  match m.nodes.lookup uid with
  | some node => can_select_indirectly node && !(greedy || depends_on_subset node selected)
  | none => false

/-- A canonical enumeration of a finite id set, in increasing order.  It is
built from insertion sort, which is structurally recursive, so concrete
instances reduce inside the kernel.  It models the (unspecified) order in
which Python iterates a `set`; order-sensitive facts are proved over
arbitrary enumeration lists. -/
def sortedEnum (s : Finset UniqueId) : List UniqueId :=
  Quot.liftOn s.val (fun l => List.insertionSort (fun a b => a ≤ b) l)
    (fun l1 l2 h =>
      List.eq_of_perm_of_sorted
        ((List.perm_insertionSort _ l1).trans
          (h.trans (List.perm_insertionSort _ l2).symm))
        (List.sorted_insertionSort _ l1)
        (List.sorted_insertionSort _ l2))

/-- One step of the `incorporate_indirect_nodes` loop body, acting on the
growing `selected` set. -/
def incorporateStep (m : Manifest) (selected : Finset UniqueId)
    (uid : UniqueId) : Finset UniqueId :=
  match m.nodes.lookup uid with
  | some node =>
      if depends_on_subset node selected = true then insert uid selected
      else selected
  | none => selected

/-- The `incorporate_indirect_nodes` pass over an explicit enumeration order
of the indirect set. -/
def incorporateList (m : Manifest) (direct : Finset UniqueId)
    (order : List UniqueId) : Finset UniqueId :=
  order.foldl (incorporateStep m) direct

/-- The node selector, bound to one graph / manifest / registry snapshot. -/
structure NodeSelector where
  full_graph : Graph
  manifest : Manifest
  registry : MethodRegistry

/-- `_is_graph_member`: sources must be enabled, exposures are members
unconditionally, nodes must be non-empty and enabled.  An id resolving to
none of the three collections would raise a `KeyError` in the Python; the
model excludes it. -/
def NodeSelector.is_graph_member (s : NodeSelector) (uid : UniqueId) : Bool :=
  match s.manifest.sources.lookup uid with
  | some source => source.config.enabled
  | none =>
    match s.manifest.exposures.lookup uid with
    | some _ => true
    | none =>
      match s.manifest.nodes.lookup uid with
      | some node => !node.empty && node.config.enabled
      | none => false

/-- The member subgraph built at selector construction. -/
def NodeSelector.graph (s : NodeSelector) : Graph :=
  s.full_graph.subgraph
    (s.full_graph.nodes.filter (fun uid => s.is_graph_member uid = true))

/-- `incorporate_indirect_nodes`: promote previously indirect tests whose
parents are now all selected.  The Python iterates the `indirect_nodes` set;
the set-level wrapper fixes the sorted enumeration order. -/
def NodeSelector.incorporate_indirect_nodes (s : NodeSelector)
    (direct_nodes indirect_nodes : Finset UniqueId) : Finset UniqueId :=
  incorporateList s.manifest direct_nodes (sortedEnum indirect_nodes)

/-- `expand_selection`: keep `selected`, add eligible (Test) one-hop
successors directly when greedy or fully covered, defer the rest. -/
def NodeSelector.expand_selection (s : NodeSelector)
    (selected : Finset UniqueId) (greedy : Bool) :
    Finset UniqueId × Finset UniqueId :=
  let succs := s.graph.select_successors selected
  (selected ∪ succs.filter (fun uid => expand_direct_cond s.manifest selected greedy uid = true),
    succs.filter (fun uid => expand_indirect_cond s.manifest selected greedy uid = true))

/-- `select_included`: run the matcher over the included nodes; `none` models
the `InvalidSelectorException` raised by `get_method`. -/
def NodeSelector.select_included (s : NodeSelector)
    (included_nodes : Finset UniqueId) (spec : SelectionCriteria) :
    Option (Finset UniqueId) :=
  (s.registry.get_method spec.method).map
    (fun search => included_nodes.filter (fun uid => search uid spec.value = true))

/-- `collect_specified_neighbors`: apply the spec's traversal modifiers. -/
def NodeSelector.collect_specified_neighbors (s : NodeSelector)
    (spec : SelectionCriteria) (selected : Finset UniqueId) : Finset UniqueId :=
  let a1 := if spec.childrens_parents then s.graph.select_childrens_parents selected else ∅
  let a2 := if spec.parents then s.graph.select_parents selected spec.parents_depth else ∅
  let a3 := if spec.children then s.graph.select_children selected spec.children_depth else ∅
  a1 ∪ a2 ∪ a3

/-- `get_nodes_from_criteria`: resolve one leaf criterion; an unknown method
logs the valid names and yields the empty pair. -/
def NodeSelector.get_nodes_from_criteria (s : NodeSelector)
    (spec : SelectionCriteria) :
    (Finset UniqueId × Finset UniqueId) × List LogEvent :=
  match s.select_included s.graph.nodes spec with
  | none =>
      ((∅, ∅),
        [LogEvent.invalidSelector spec.method spec.raw s.registry.selectorMethods])
  | some collected =>
      let neighbors := s.collect_specified_neighbors spec collected
      (s.expand_selection (collected ∪ neighbors) spec.greedy, [])

mutual

/-- `select_nodes_recursively`: leaves resolve by criteria; composites
combine child bundles with the spec's operator and run the indirect pass. -/
def NodeSelector.select_nodes_recursively (s : NodeSelector) :
    SelectionSpec → (Finset UniqueId × Finset UniqueId) × List LogEvent
  | SelectionSpec.criteria c => s.get_nodes_from_criteria c
  | SelectionSpec.composite op comps ee raw =>
      let bundles := NodeSelector.selectComponents s comps
      let sets := bundles.foldl
        (fun acc b => (acc.1 ++ [b.1.1], acc.2 ++ [b.1.1 ∪ b.1.2])) ([], [])
      let initial_direct := op.combined sets.1
      let indirect_nodes := op.combined sets.2
      let direct_nodes := s.incorporate_indirect_nodes initial_direct indirect_nodes
      let alert := if ee = true then alert_non_existence raw direct_nodes else []
      ((direct_nodes, indirect_nodes), (bundles.map (fun b => b.2)).flatten ++ alert)

/-- Evaluation of a composite's component list, in order. -/
def NodeSelector.selectComponents (s : NodeSelector) :
    List SelectionSpec → List ((Finset UniqueId × Finset UniqueId) × List LogEvent)
  | [] => []
  | spec :: rest =>
      NodeSelector.select_nodes_recursively s spec ::
        NodeSelector.selectComponents s rest

end

/-- `select_nodes`: evaluate the spec and report `indirect \ direct`. -/
def NodeSelector.select_nodes (s : NodeSelector) (spec : SelectionSpec) :
    (Finset UniqueId × Finset UniqueId) × List LogEvent :=
  let r := s.select_nodes_recursively spec
  ((r.1.1, r.1.2 \ r.1.1), r.2)

/-- `node_is_match`: the base selector matches every node. -/
def NodeSelector.node_is_match (s : NodeSelector) (node : GraphMember) : Bool :=
  true

/-- `_is_match`: resolve the id across the three manifest collections and ask
`node_is_match`.  An unresolved id raises `InternalException` in the Python;
the model excludes it. -/
def NodeSelector.is_match (s : NodeSelector) (uid : UniqueId) : Bool :=
  match s.manifest.nodes.lookup uid with
  | some n => s.node_is_match (GraphMember.node n)
  | none =>
    match s.manifest.sources.lookup uid with
    | some src => s.node_is_match (GraphMember.source src)
    | none =>
      match s.manifest.exposures.lookup uid with
      | some e => s.node_is_match (GraphMember.exposure e)
      | none => false

/-- `filter_selection`: keep the matching subset. -/
def NodeSelector.filter_selection (s : NodeSelector)
    (selected : Finset UniqueId) : Finset UniqueId :=
  selected.filter (fun uid => s.is_match uid = true)

/-- `get_selected`: select, filter, and report filtered-out indirect nodes. -/
def NodeSelector.get_selected (s : NodeSelector) (spec : SelectionSpec) :
    Finset UniqueId × List LogEvent :=
  let r := s.select_nodes spec
  let filtered_nodes := s.filter_selection r.1.1
  let indirect_only := r.1.2
  let extra :=
    if indirect_only ≠ ∅ then
      let filtered_unused_nodes := s.filter_selection indirect_only
      if filtered_unused_nodes ≠ ∅ then
        [alert_unused_nodes s.manifest (sortedEnum filtered_unused_nodes)]
      else []
    else []
  (filtered_nodes, r.2 ++ extra)

/-- The boolean qualifier of the indirect pass, measured against a fixed
baseline set: the id resolves to a manifest node whose parents all lie in the
baseline. -/
def promotes (m : Manifest) (direct : Finset UniqueId) (uid : UniqueId) : Bool :=
  match m.nodes.lookup uid with
  | some node => depends_on_subset node direct
  | none => false

/-- The `depends_on` parents of an id, looked up in the manifest's node
collection; ids that do not resolve to a manifest node have no parents (the
pass skips them). -/
def lookup_depends_on (m : Manifest) (uid : UniqueId) : List UniqueId :=
  match m.nodes.lookup uid with
  | some node => node.depends_on.nodes
  | none => []

/-- A store of Python `set` objects, indexed by allocation order.  Used to
state object-identity (frame) properties of `incorporate_indirect_nodes`. -/
abbrev SetHeap := List (Finset UniqueId)

/-- Read the set object at an address (reads of unallocated addresses are
irrelevant to the theorems and default to the empty set). -/
def SetHeap.read (h : SetHeap) (a : Nat) : Finset UniqueId := h[a]?.getD ∅

/-- Overwrite the set object at an address in place. -/
def SetHeap.write (h : SetHeap) (a : Nat) (v : Finset UniqueId) : SetHeap :=
  h.set a v

/-- One iteration of the `incorporate_indirect_nodes` loop at the store
level: `selected.add(unique_id)` mutates the cell holding `selected`. -/
def heapStep (m : Manifest) (selAddr : Nat) (hh : SetHeap) (uid : UniqueId) :
    SetHeap :=
  match m.nodes.lookup uid with
  | some node =>
      if depends_on_subset node (SetHeap.read hh selAddr) = true then
        SetHeap.write hh selAddr (insert uid (SetHeap.read hh selAddr))
      else hh
  | none => hh

/-- Operational embedding of `incorporate_indirect_nodes` over an explicit
store of set objects, capturing Python object identity: the callee receives
the addresses of its two set arguments, `selected = set(direct_nodes)`
allocates a fresh cell holding a copy, the loop mutates only that fresh
cell, and the fresh cell's address is returned. -/
def incorporate_indirect_nodes_heap (m : Manifest) (h : SetHeap)
    (directAddr indirectAddr : Nat) : SetHeap × Nat :=
  let selAddr := h.length
  let h1 := h ++ [SetHeap.read h directAddr]
  let h2 := (sortedEnum (SetHeap.read h indirectAddr)).foldl (heapStep m selAddr) h1
  (h2, selAddr)

/-- An enabled, non-empty Test node with the given parents. -/
def mkTestNode (deps : List UniqueId) : ManifestNode :=
  { resource_type := NodeType.Test
    depends_on := { nodes := deps }
    empty := false
    config := { enabled := true }
    name := "test_node" }

/-- An enabled, non-empty Model node with the given parents. -/
def mkModelNode (deps : List UniqueId) : ManifestNode :=
  { resource_type := NodeType.Model
    depends_on := { nodes := deps }
    empty := false
    config := { enabled := true }
    name := "model_node" }

/-- Manifest in which test 1 depends on test 2, and test 2 has no parents. -/
def mTests : Manifest :=
  { nodes := [(1, mkTestNode [2]), (2, mkTestNode [])]
    sources := []
    exposures := [] }

/-- Selector over `mTests` with an empty graph and registry. -/
def selTests : NodeSelector :=
  { full_graph := { nodeSet := ∅, edges := ∅ }
    manifest := mTests
    registry := { methods := [] } }

/-- Manifest of two parentless tests. -/
def mFree : Manifest :=
  { nodes := [(1, mkTestNode []), (2, mkTestNode [])]
    sources := []
    exposures := [] }

/-- Selector over `mFree` with an empty graph and registry. -/
def selFree : NodeSelector :=
  { full_graph := { nodeSet := ∅, edges := ∅ }
    manifest := mFree
    registry := { methods := [] } }

/-- Selector with an empty graph and manifest whose registry knows one
method, matching nothing. -/
def selEmpty : NodeSelector :=
  { full_graph := { nodeSet := ∅, edges := ∅ }
    manifest := { nodes := [], sources := [], exposures := [] }
    registry := { methods := [("name", fun _ _ => false)] } }

/-- A leaf criterion using the known method, matching nothing, with
`expect_exists` set. -/
def critNoMatch : SelectionCriteria :=
  { method := "name"
    method_arguments := []
    value := "missing"
    childrens_parents := false
    parents := false
    parents_depth := none
    children := false
    children_depth := none
    greedy := false
    expect_exists := true
    raw := "name:missing" }

/-- A leaf criterion whose method name is not in `selEmpty`'s registry. -/
def critUnknown : SelectionCriteria :=
  { method := "tag"
    method_arguments := []
    value := "v"
    childrens_parents := false
    parents := false
    parents_depth := none
    children := false
    children_depth := none
    greedy := false
    expect_exists := false
    raw := "tag:v" }

/-- Selector whose full graph holds one enabled non-empty model, with a
registry method matching exactly id 10. -/
def selModel : NodeSelector :=
  { full_graph := { nodeSet := {10}, edges := ∅ }
    manifest :=
      { nodes := [(10, mkModelNode [])]
        sources := []
        exposures := [] }
    registry := { methods := [("id", fun uid _ => uid == 10)] } }

/-- A leaf spec selecting id 10 through `selModel`'s registry. -/
def specModel : SelectionSpec :=
  SelectionSpec.criteria
    { method := "id"
      method_arguments := []
      value := ""
      childrens_parents := false
      parents := false
      parents_depth := none
      children := false
      children_depth := none
      greedy := false
      expect_exists := false
      raw := "id:10" }

/-- Selector whose full graph holds one exposure whose `enabled` flag is
false. -/
def selDisabledExposure : NodeSelector :=
  { full_graph := { nodeSet := {5}, edges := ∅ }
    manifest :=
      { nodes := []
        sources := []
        exposures := [(5, { config := { enabled := false } })] }
    registry := { methods := [] } }

/-- A two-cell store: address 0 holds the direct set, address 1 the
indirect set. -/
def heap2 : SetHeap := [∅, {1, 2}]

theorem selectComponents_eq_map (s : NodeSelector) (l : List SelectionSpec) :
    NodeSelector.selectComponents s l = l.map s.select_nodes_recursively := by
  induction l with
  | nil => rfl
  | cons x xs ih => simp [NodeSelector.selectComponents, ih]

theorem bundles_fold_eq
    (bundles : List ((Finset UniqueId × Finset UniqueId) × List LogEvent)) :
    ∀ xs ys : List (Finset UniqueId),
      bundles.foldl
          (fun acc b => (acc.1 ++ [b.1.1], acc.2 ++ [b.1.1 ∪ b.1.2])) (xs, ys) =
        (xs ++ bundles.map (fun b => b.1.1),
          ys ++ bundles.map (fun b => b.1.1 ∪ b.1.2)) := by
  induction bundles with
  | nil => intro xs ys; simp
  | cons b rest ih =>
    intro xs ys
    rw [List.foldl_cons, ih (xs ++ [b.1.1]) (ys ++ [b.1.1 ∪ b.1.2])]
    simp

theorem coe_sortedEnum (s : Finset UniqueId) :
    ((sortedEnum s : List UniqueId) : Multiset UniqueId) = s.val := by
  rcases s with ⟨m, hm⟩
  revert hm
  refine Quot.inductionOn m ?_
  intro l hl
  exact Multiset.coe_eq_coe.mpr (List.perm_insertionSort _ l)

theorem mem_sortedEnum (a : UniqueId) (s : Finset UniqueId) :
    a ∈ sortedEnum s ↔ a ∈ s := by
  rw [Finset.mem_def, ← coe_sortedEnum]
  exact Multiset.mem_coe.symm

theorem toFinset_sortedEnum (s : Finset UniqueId) :
    (sortedEnum s).toFinset = s := by
  ext a
  simp [List.mem_toFinset, mem_sortedEnum]

theorem depends_on_subset_iff (node : ManifestNode) (selected : Finset UniqueId) :
    depends_on_subset node selected = true ↔
      ∀ p ∈ node.depends_on.nodes, p ∈ selected := by
  simp [depends_on_subset, List.all_eq_true]

theorem parentsOf_subset (g : Graph) (s : Finset UniqueId) :
    g.parentsOf s ⊆ g.nodes := Finset.filter_subset _ _

theorem childrenOf_subset (g : Graph) (s : Finset UniqueId) :
    g.childrenOf s ⊆ g.nodes := Finset.filter_subset _ _

theorem expandWithin_subset (step : Finset UniqueId → Finset UniqueId)
    (U : Finset UniqueId) (hstep : ∀ f, step f ⊆ U) :
    ∀ (n : Nat) (frontier : Finset UniqueId),
      Graph.expandWithin step frontier n ⊆ U := by
  intro n
  induction n with
  | zero => intro f; simp [Graph.expandWithin]
  | succ k ih =>
    intro f
    simp only [Graph.expandWithin]
    exact Finset.union_subset (hstep f) (ih _)

theorem select_parents_subset (g : Graph) (s : Finset UniqueId) (d : Option Nat) :
    g.select_parents s d ⊆ g.nodes :=
  expandWithin_subset _ _ (fun f => parentsOf_subset g f) _ _

theorem select_children_subset (g : Graph) (s : Finset UniqueId) (d : Option Nat) :
    g.select_children s d ⊆ g.nodes :=
  expandWithin_subset _ _ (fun f => childrenOf_subset g f) _ _

theorem select_childrens_parents_subset (g : Graph) (s : Finset UniqueId) :
    g.select_childrens_parents s ⊆ g.nodes :=
  select_parents_subset _ _ _

theorem select_successors_subset (g : Graph) (s : Finset UniqueId) :
    g.select_successors s ⊆ g.nodes := childrenOf_subset g s

theorem foldl_union_subset (U : Finset UniqueId) (l : List (Finset UniqueId)) :
    ∀ acc, acc ⊆ U → (∀ t ∈ l, t ⊆ U) →
      l.foldl (fun a b => a ∪ b) acc ⊆ U := by
  induction l with
  | nil => intro acc hacc _; exact hacc
  | cons x xs ih =>
    intro acc hacc hl
    exact ih _ (Finset.union_subset hacc (hl x (by simp)))
      (fun t ht => hl t (by simp [ht]))

theorem foldl_inter_subset (l : List (Finset UniqueId)) :
    ∀ acc, l.foldl (fun a b => a ∩ b) acc ⊆ acc := by
  induction l with
  | nil => intro acc; exact Finset.Subset.refl _
  | cons x xs ih =>
    intro acc
    exact (ih _).trans Finset.inter_subset_left

theorem foldl_sdiff_subset (l : List (Finset UniqueId)) :
    ∀ acc, l.foldl (fun a b => a \ b) acc ⊆ acc := by
  induction l with
  | nil => intro acc; exact Finset.Subset.refl _
  | cons x xs ih =>
    intro acc
    exact (ih _).trans (Finset.sdiff_subset)

theorem combined_subset (op : SetOperator) (sets : List (Finset UniqueId))
    (U : Finset UniqueId) (h : ∀ t ∈ sets, t ⊆ U) :
    op.combined sets ⊆ U := by
  cases op with
  | Union =>
    exact foldl_union_subset U sets ∅ (Finset.empty_subset _) h
  | Intersection =>
    cases sets with
    | nil => simp [SetOperator.combined]
    | cons x xs => exact (foldl_inter_subset xs x).trans (h x (by simp))
  | Difference =>
    cases sets with
    | nil => simp [SetOperator.combined]
    | cons x xs => exact (foldl_sdiff_subset xs x).trans (h x (by simp))

theorem incorporateStep_subset (m : Manifest) (sel : Finset UniqueId)
    (uid : UniqueId) : incorporateStep m sel uid ⊆ insert uid sel := by
  unfold incorporateStep
  cases m.nodes.lookup uid with
  | none => exact Finset.subset_insert _ _
  | some node =>
    show (if depends_on_subset node sel = true then insert uid sel else sel) ⊆
      insert uid sel
    by_cases h : depends_on_subset node sel = true
    · rw [if_pos h]
    · rw [if_neg h]
      exact Finset.subset_insert _ _

theorem subset_incorporateStep (m : Manifest) (sel : Finset UniqueId)
    (uid : UniqueId) : sel ⊆ incorporateStep m sel uid := by
  unfold incorporateStep
  cases m.nodes.lookup uid with
  | none => exact Finset.Subset.refl _
  | some node =>
    show sel ⊆
      (if depends_on_subset node sel = true then insert uid sel else sel)
    by_cases h : depends_on_subset node sel = true
    · rw [if_pos h]
      exact Finset.subset_insert _ _
    · rw [if_neg h]

theorem incorporateList_subset (m : Manifest) (l : List UniqueId) :
    ∀ acc, incorporateList m acc l ⊆ acc ∪ l.toFinset := by
  induction l with
  | nil => intro acc; simp [incorporateList]
  | cons uid rest ih =>
    intro acc
    have h1 : incorporateList m acc (uid :: rest) =
        incorporateList m (incorporateStep m acc uid) rest := rfl
    rw [h1]
    refine (ih _).trans ?_
    intro a ha
    rcases Finset.mem_union.mp ha with h | h
    · rcases Finset.mem_insert.mp ((incorporateStep_subset m acc uid) h) with h2 | h2
      · subst h2; simp
      · simp [h2]
    · simp [h]

theorem subset_incorporateList (m : Manifest) (l : List UniqueId) :
    ∀ acc, acc ⊆ incorporateList m acc l := by
  induction l with
  | nil => intro acc; exact Finset.Subset.refl _
  | cons uid rest ih =>
    intro acc
    exact (subset_incorporateStep m acc uid).trans (ih _)

theorem incorporate_indirect_nodes_subset (s : NodeSelector)
    (direct indirect : Finset UniqueId) :
    s.incorporate_indirect_nodes direct indirect ⊆ direct ∪ indirect := by
  have h := incorporateList_subset s.manifest (sortedEnum indirect) direct
  rwa [toFinset_sortedEnum] at h

theorem depends_on_subset_congr (node : ManifestNode)
    (direct I acc : Finset UniqueId)
    (hda : direct ⊆ acc) (had : acc ⊆ direct ∪ I)
    (hind : ∀ p ∈ node.depends_on.nodes, p ∈ I → p ∈ direct) :
    depends_on_subset node acc = depends_on_subset node direct := by
  have hiff : (depends_on_subset node acc = true) ↔
      (depends_on_subset node direct = true) := by
    rw [depends_on_subset_iff, depends_on_subset_iff]
    constructor
    · intro h p hp
      rcases Finset.mem_union.mp (had (h p hp)) with h2 | h2
      · exact h2
      · exact hind p hp h2
    · intro h p hp
      exact hda (h p hp)
  cases hacc : depends_on_subset node acc with
  | true => exact (hiff.mp hacc).symm
  | false =>
    cases hdir : depends_on_subset node direct with
    | true => exact absurd (hiff.mpr hdir) (by simp [hacc])
    | false => rfl

theorem incorporateList_eq_filter (m : Manifest) (direct I : Finset UniqueId)
    (hI : ∀ uid ∈ I, ∀ node, m.nodes.lookup uid = some node →
        ∀ p ∈ node.depends_on.nodes, p ∈ I → p ∈ direct) :
    ∀ (l : List UniqueId), (∀ uid ∈ l, uid ∈ I) →
      ∀ acc, direct ⊆ acc → acc ⊆ direct ∪ I →
        incorporateList m acc l =
          acc ∪ (l.filter (fun uid => promotes m direct uid)).toFinset := by
  intro l
  induction l with
  | nil => intro _ acc _ _; simp [incorporateList]
  | cons uid rest ih =>
    intro hl acc hda had
    have huid : uid ∈ I := hl uid (by simp)
    have hstep : incorporateList m acc (uid :: rest) =
        incorporateList m (incorporateStep m acc uid) rest := rfl
    rw [hstep]
    cases hm : m.nodes.lookup uid with
    | none =>
      have h1 : incorporateStep m acc uid = acc := by
        unfold incorporateStep
        rw [hm]
      have h2 : promotes m direct uid = false := by
        unfold promotes
        rw [hm]
      rw [h1, List.filter_cons_of_neg (by simp [h2]),
        ih (fun v hv => hl v (by simp [hv])) acc hda had]
    | some node =>
      have hcongr : depends_on_subset node acc = depends_on_subset node direct :=
        depends_on_subset_congr node direct I acc hda had
          (fun p hp hpI => hI uid huid node hm p hp hpI)
      have hpromo : promotes m direct uid = depends_on_subset node direct := by
        unfold promotes
        rw [hm]
      have h1 : incorporateStep m acc uid =
          (if depends_on_subset node direct = true then insert uid acc else acc) := by
        unfold incorporateStep
        rw [hm]
        show (if depends_on_subset node acc = true then insert uid acc else acc) = _
        rw [hcongr]
      cases hdir : depends_on_subset node direct with
      | false =>
        rw [h1, if_neg (by simp [hdir]),
          List.filter_cons_of_neg (by simp [hpromo, hdir]),
          ih (fun v hv => hl v (by simp [hv])) acc hda had]
      | true =>
        rw [h1, if_pos (by simp [hdir]),
          List.filter_cons_of_pos (by simp [hpromo, hdir]),
          ih (fun v hv => hl v (by simp [hv])) (insert uid acc)
            (hda.trans (Finset.subset_insert _ _))
            (Finset.insert_subset (Finset.mem_union.mpr (Or.inr huid)) had)]
        ext a
        simp only [Finset.mem_union, Finset.mem_insert, List.toFinset_cons,
          List.mem_toFinset]
        tauto

theorem expand_selection_direct_subset (s : NodeSelector)
    (selected : Finset UniqueId) (greedy : Bool)
    (hsel : selected ⊆ s.graph.nodes) :
    (s.expand_selection selected greedy).1 ⊆ s.graph.nodes := by
  unfold NodeSelector.expand_selection
  exact Finset.union_subset hsel
    ((Finset.filter_subset _ _).trans (select_successors_subset _ _))

theorem expand_selection_indirect_subset (s : NodeSelector)
    (selected : Finset UniqueId) (greedy : Bool) :
    (s.expand_selection selected greedy).2 ⊆ s.graph.nodes := by
  unfold NodeSelector.expand_selection
  exact (Finset.filter_subset _ _).trans (select_successors_subset _ _)

theorem collect_specified_neighbors_subset (s : NodeSelector)
    (spec : SelectionCriteria) (selected : Finset UniqueId) :
    s.collect_specified_neighbors spec selected ⊆ s.graph.nodes := by
  unfold NodeSelector.collect_specified_neighbors
  refine Finset.union_subset (Finset.union_subset ?_ ?_) ?_
  · by_cases h : spec.childrens_parents = true
    · simp only [h, if_true]
      exact select_childrens_parents_subset _ _
    · simp only [Bool.not_eq_true] at h
      simp only [h, Bool.false_eq_true, if_false]
      exact Finset.empty_subset _
  · by_cases h : spec.parents = true
    · simp only [h, if_true]
      exact select_parents_subset _ _ _
    · simp only [Bool.not_eq_true] at h
      simp only [h, Bool.false_eq_true, if_false]
      exact Finset.empty_subset _
  · by_cases h : spec.children = true
    · simp only [h, if_true]
      exact select_children_subset _ _ _
    · simp only [Bool.not_eq_true] at h
      simp only [h, Bool.false_eq_true, if_false]
      exact Finset.empty_subset _

theorem get_nodes_from_criteria_subset (s : NodeSelector)
    (spec : SelectionCriteria) :
    (s.get_nodes_from_criteria spec).1.1 ⊆ s.graph.nodes ∧
      (s.get_nodes_from_criteria spec).1.2 ⊆ s.graph.nodes := by
  unfold NodeSelector.get_nodes_from_criteria
  cases hsel : s.select_included s.graph.nodes spec with
  | none =>
    constructor
    · exact Finset.empty_subset _
    · exact Finset.empty_subset _
  | some collected =>
    have hcoll : collected ⊆ s.graph.nodes := by
      unfold NodeSelector.select_included at hsel
      cases hg : s.registry.get_method spec.method with
      | none => rw [hg] at hsel; exact absurd hsel (by simp)
      | some search =>
        rw [hg] at hsel
        have h2 : s.graph.nodes.filter (fun uid => search uid spec.value = true) =
            collected := Option.some.inj (by exact hsel)
        rw [← h2]
        exact Finset.filter_subset _ _
    have hunion : collected ∪ s.collect_specified_neighbors spec collected ⊆
        s.graph.nodes :=
      Finset.union_subset hcoll (collect_specified_neighbors_subset s spec collected)
    constructor
    · exact expand_selection_direct_subset s _ _ hunion
    · exact expand_selection_indirect_subset s _ _

theorem select_nodes_recursively_subset (s : NodeSelector) :
    ∀ spec : SelectionSpec,
      (s.select_nodes_recursively spec).1.1 ⊆ s.graph.nodes ∧
        (s.select_nodes_recursively spec).1.2 ⊆ s.graph.nodes
  | SelectionSpec.criteria c => get_nodes_from_criteria_subset s c
  | SelectionSpec.composite op comps ee raw => by
    have hcomp : ∀ spec2 ∈ comps,
        (s.select_nodes_recursively spec2).1.1 ⊆ s.graph.nodes ∧
          (s.select_nodes_recursively spec2).1.2 ⊆ s.graph.nodes :=
      fun spec2 _ => select_nodes_recursively_subset s spec2
    simp only [NodeSelector.select_nodes_recursively, selectComponents_eq_map,
      bundles_fold_eq, List.nil_append, List.map_map]
    have hdsets : ∀ t ∈ comps.map
        ((fun b => b.1.1) ∘ s.select_nodes_recursively),
        t ⊆ s.graph.nodes := by
      intro t ht
      rcases List.mem_map.mp ht with ⟨c, hc, rfl⟩
      exact (hcomp c hc).1
    have hisets : ∀ t ∈ comps.map
        ((fun b => b.1.1 ∪ b.1.2) ∘ s.select_nodes_recursively),
        t ⊆ s.graph.nodes := by
      intro t ht
      rcases List.mem_map.mp ht with ⟨c, hc, rfl⟩
      exact Finset.union_subset (hcomp c hc).1 (hcomp c hc).2
    have hind : op.combined (comps.map
        ((fun b => b.1.1 ∪ b.1.2) ∘ s.select_nodes_recursively)) ⊆
        s.graph.nodes := combined_subset _ _ _ hisets
    have hdir : op.combined (comps.map
        ((fun b => b.1.1) ∘ s.select_nodes_recursively)) ⊆
        s.graph.nodes := combined_subset _ _ _ hdsets
    constructor
    · exact (incorporate_indirect_nodes_subset s _ _).trans
        (Finset.union_subset hdir hind)
    · exact hind
termination_by spec => sizeOf spec
decreasing_by
  simp_wf
  have := List.sizeOf_lt_of_mem (by assumption : spec2 ∈ comps)
  omega

theorem can_select_indirectly_iff (node : ManifestNode) :
    can_select_indirectly node = true ↔
      node.resource_type = NodeType.Test := by
  unfold can_select_indirectly
  by_cases h : node.resource_type = NodeType.Test
  · simp [h]
  · simp [h]

theorem expand_direct_cond_iff (m : Manifest) (selected : Finset UniqueId)
    (greedy : Bool) (uid : UniqueId) :
    expand_direct_cond m selected greedy uid = true ↔
      ∃ node, m.nodes.lookup uid = some node ∧
        node.resource_type = NodeType.Test ∧
        (greedy = true ∨ ∀ p ∈ node.depends_on.nodes, p ∈ selected) := by
  unfold expand_direct_cond
  cases hm : m.nodes.lookup uid with
  | none => simp
  | some node =>
    show (can_select_indirectly node &&
        (greedy || depends_on_subset node selected)) = true ↔ _
    rw [Bool.and_eq_true, Bool.or_eq_true, can_select_indirectly_iff,
      depends_on_subset_iff]
    constructor
    · intro h
      exact ⟨node, rfl, h.1, h.2⟩
    · intro h
      rcases h with ⟨node2, hn2, ht, hrest⟩
      cases Option.some.inj hn2
      exact ⟨ht, hrest⟩

theorem expand_indirect_cond_iff (m : Manifest) (selected : Finset UniqueId)
    (greedy : Bool) (uid : UniqueId) :
    expand_indirect_cond m selected greedy uid = true ↔
      ∃ node, m.nodes.lookup uid = some node ∧
        node.resource_type = NodeType.Test ∧
        ¬(greedy = true ∨ ∀ p ∈ node.depends_on.nodes, p ∈ selected) := by
  unfold expand_indirect_cond
  cases hm : m.nodes.lookup uid with
  | none => simp
  | some node =>
    show (can_select_indirectly node &&
        !(greedy || depends_on_subset node selected)) = true ↔ _
    rw [Bool.and_eq_true, Bool.not_eq_true', Bool.or_eq_false_iff,
      can_select_indirectly_iff]
    constructor
    · intro h
      refine ⟨node, rfl, h.1, ?_⟩
      intro hor
      rcases hor with hg | hd
      · rw [h.2.1] at hg
        exact Bool.false_ne_true hg
      · rw [← depends_on_subset_iff] at hd
        rw [h.2.2] at hd
        exact Bool.false_ne_true hd
    · intro h
      rcases h with ⟨node2, hn2, ht, hrest⟩
      cases Option.some.inj hn2
      refine ⟨ht, ?_, ?_⟩
      · cases hg : greedy with
        | false => rfl
        | true => exact absurd (Or.inl hg) hrest
      · cases hd : depends_on_subset node selected with
        | false => rfl
        | true =>
          exact absurd (Or.inr ((depends_on_subset_iff node selected).mp hd)) hrest

/-- C1: for a composite spec with children evaluated to `(direct_i,
indirect_i)`, the evaluator forms `direct_sets = [direct_i]` and
`indirect_sets = [direct_i ∪ indirect_i]`, combines each list with the
composite's operator, returns the combined `indirect_sets` as the node's
indirect output, and returns `incorporate_indirect_nodes` of the two
combined results as the node's direct output. -/
theorem C1_composite_combination (s : NodeSelector) (op : SetOperator)
    (comps : List SelectionSpec) (ee : Bool) (raw : String) :
    (s.select_nodes_recursively (SelectionSpec.composite op comps ee raw)).1 =
      (s.incorporate_indirect_nodes
          (op.combined (comps.map (fun c => (s.select_nodes_recursively c).1.1)))
          (op.combined (comps.map (fun c =>
            (s.select_nodes_recursively c).1.1 ∪
              (s.select_nodes_recursively c).1.2))),
        op.combined (comps.map (fun c =>
          (s.select_nodes_recursively c).1.1 ∪
            (s.select_nodes_recursively c).1.2))) := by
  simp only [NodeSelector.select_nodes_recursively, selectComponents_eq_map,
    bundles_fold_eq, List.nil_append, List.map_map]
  rfl

/-- C6: `select_nodes` returns the evaluated direct set together with
`indirect \ direct`, so the reported indirect-only set never intersects the
direct set. -/
theorem C6_indirect_only_disjoint (s : NodeSelector) (spec : SelectionSpec) :
    (s.select_nodes spec).1.2 =
      (s.select_nodes_recursively spec).1.2 \
        (s.select_nodes_recursively spec).1.1 ∧
      Disjoint (s.select_nodes spec).1.2 (s.select_nodes spec).1.1 := by
  constructor
  · rfl
  · exact Finset.sdiff_disjoint

/-- C7: on the same input, the direct set produced by greedy expansion
contains the direct set produced by non-greedy expansion. -/
theorem C7_greedy_superset (s : NodeSelector) (selected : Finset UniqueId) :
    (s.expand_selection selected false).1 ⊆ (s.expand_selection selected true).1 := by
  unfold NodeSelector.expand_selection
  refine Finset.union_subset_union (Finset.Subset.refl _) ?_
  intro uid hu
  rw [Finset.mem_filter] at hu ⊢
  refine ⟨hu.1, ?_⟩
  have hcond := hu.2
  rw [expand_direct_cond_iff] at hcond ⊢
  rcases hcond with ⟨node, hn, ht, _⟩
  exact ⟨node, hn, ht, Or.inl rfl⟩

/-- C8: a leaf criterion whose method name the registry does not know logs
the invalid name together with the valid method names and yields the empty
pair without raising. -/
theorem C8_unknown_method (s : NodeSelector) (spec : SelectionCriteria)
    (h : s.registry.get_method spec.method = none) :
    s.get_nodes_from_criteria spec =
      ((∅, ∅),
        [LogEvent.invalidSelector spec.method spec.raw
          s.registry.selectorMethods]) := by
  unfold NodeSelector.get_nodes_from_criteria NodeSelector.select_included
  rw [h]
  rfl

theorem C8_unknown_method_witness :
    selEmpty.registry.get_method critUnknown.method = none ∧
      selEmpty.get_nodes_from_criteria critUnknown =
        ((∅, ∅),
          [LogEvent.invalidSelector critUnknown.method critUnknown.raw
            selEmpty.registry.selectorMethods]) :=
  ⟨rfl, C8_unknown_method selEmpty critUnknown rfl⟩

/-- C2: `expand_selection` returns as direct output the input set plus every
one-hop successor that resolves to a Test manifest node and satisfies
`greedy` or full parent coverage, and as indirect output the Test successors
failing that condition; successors of any other resource kind are never
added. -/
theorem C2_expand_selection_characterization (s : NodeSelector)
    (selected : Finset UniqueId) (greedy : Bool) (uid : UniqueId) :
    (uid ∈ (s.expand_selection selected greedy).1 ↔
      uid ∈ selected ∨
        (uid ∈ s.graph.select_successors selected ∧
          ∃ node, s.manifest.nodes.lookup uid = some node ∧
            node.resource_type = NodeType.Test ∧
            (greedy = true ∨ ∀ p ∈ node.depends_on.nodes, p ∈ selected))) ∧
      (uid ∈ (s.expand_selection selected greedy).2 ↔
        uid ∈ s.graph.select_successors selected ∧
          ∃ node, s.manifest.nodes.lookup uid = some node ∧
            node.resource_type = NodeType.Test ∧
            ¬(greedy = true ∨ ∀ p ∈ node.depends_on.nodes, p ∈ selected)) := by
  unfold NodeSelector.expand_selection
  constructor
  · rw [Finset.mem_union, Finset.mem_filter]
    constructor
    · intro h
      rcases h with h | ⟨hs, hc⟩
      · exact Or.inl h
      · exact Or.inr ⟨hs, (expand_direct_cond_iff _ _ _ _).mp hc⟩
    · intro h
      rcases h with h | ⟨hs, hc⟩
      · exact Or.inl h
      · exact Or.inr ⟨hs, (expand_direct_cond_iff _ _ _ _).mpr hc⟩
  · rw [Finset.mem_filter]
    constructor
    · intro h
      exact ⟨h.1, (expand_indirect_cond_iff _ _ _ _).mp h.2⟩
    · intro h
      exact ⟨h.1, (expand_indirect_cond_iff _ _ _ _).mpr h.2⟩

/-- C3 (amended): for a composite spec with `expect_exists` set whose
evaluation produces an empty direct set, the evaluator appends exactly one
"no nodes matched" warning naming the spec's raw text to the children's
logs, and the direct result stays the empty set; leaf criteria never receive
this check. -/
theorem C3_composite_empty_warns (s : NodeSelector) (op : SetOperator)
    (comps : List SelectionSpec) (raw : String)
    (hempty :
      (s.select_nodes_recursively
        (SelectionSpec.composite op comps true raw)).1.1 = ∅) :
    (s.select_nodes_recursively (SelectionSpec.composite op comps true raw)).2 =
      ((s.selectComponents comps).map (fun b => b.2)).flatten ++
          [LogEvent.noNodesMatched raw] ∧
      (s.select_nodes_recursively
        (SelectionSpec.composite op comps true raw)).1.1 = ∅ := by
  refine ⟨?_, hempty⟩
  simp only [NodeSelector.select_nodes_recursively] at hempty ⊢
  rw [hempty]
  simp [alert_non_existence]

theorem C3_composite_empty_warns_witness :
    (selEmpty.select_nodes_recursively
        (SelectionSpec.composite SetOperator.Union [] true "empty!")).1.1 = ∅ ∧
      ((selEmpty.select_nodes_recursively
          (SelectionSpec.composite SetOperator.Union [] true "empty!")).2 =
        ((selEmpty.selectComponents []).map (fun b => b.2)).flatten ++
            [LogEvent.noNodesMatched "empty!"] ∧
        (selEmpty.select_nodes_recursively
          (SelectionSpec.composite SetOperator.Union [] true "empty!")).1.1 = ∅) :=
  ⟨by decide,
    C3_composite_empty_warns selEmpty SetOperator.Union [] "empty!" (by decide)⟩

/-- C3 counterexample: a leaf criterion with `expect_exists` set that
matches nothing produces an empty direct set yet emits no "no nodes
matched" warning — the leaf branch of `select_nodes_recursively` never
consults `expect_exists`. -/
theorem C3_leaf_no_warning_counterexample :
    critNoMatch.expect_exists = true ∧
      (selEmpty.select_nodes_recursively
        (SelectionSpec.criteria critNoMatch)).1.1 = ∅ ∧
      (selEmpty.select_nodes_recursively
        (SelectionSpec.criteria critNoMatch)).2 = [] := by
  refine ⟨rfl, ?_, ?_⟩
  · decide
  · decide

theorem promotes_mem_indirect
    (m : Manifest) (direct : Finset UniqueId) (l : List UniqueId) (a : UniqueId)
    (ha : a ∈ (l.filter (fun uid => promotes m direct uid)).toFinset) :
    a ∈ l := List.mem_of_mem_filter (List.mem_toFinset.mp ha)

/-- C4 counterexample: with test 1 depending on test 2 and test 2 parentless,
one pass over the indirect set `{1, 2}` (enumerated in increasing order)
promotes only 2, while a second pass additionally promotes 1, so double
application differs from single application. -/
theorem C4_not_idempotent_counterexample :
    ¬ (selTests.incorporate_indirect_nodes
          (selTests.incorporate_indirect_nodes ∅ {1, 2}) {1, 2} =
        selTests.incorporate_indirect_nodes ∅ {1, 2}) := by
  decide

/-- C4 (amended): the single pass is idempotent whenever no indirect node
depends on another indirect node that is still outside the direct set —
i.e. every indirect node's parents that lie in the indirect set already lie
in `direct`. -/
theorem C4_idempotent_of_independent (s : NodeSelector)
    (direct indirect : Finset UniqueId)
    (hcond : ∀ uid ∈ indirect, ∀ p ∈ lookup_depends_on s.manifest uid,
      p ∈ indirect → p ∈ direct) :
    s.incorporate_indirect_nodes
        (s.incorporate_indirect_nodes direct indirect) indirect =
      s.incorporate_indirect_nodes direct indirect := by
  have hI : ∀ uid ∈ indirect, ∀ node,
      s.manifest.nodes.lookup uid = some node →
      ∀ p ∈ node.depends_on.nodes, p ∈ indirect → p ∈ direct := by
    intro uid hu node hm p hp hpi
    refine hcond uid hu p ?_ hpi
    unfold lookup_depends_on
    rw [hm]
    exact hp
  have hl : ∀ uid ∈ sortedEnum indirect, uid ∈ indirect :=
    fun uid hu => (mem_sortedEnum uid indirect).mp hu
  have hpass1 : incorporateList s.manifest direct (sortedEnum indirect) =
      direct ∪ ((sortedEnum indirect).filter
        (fun uid => promotes s.manifest direct uid)).toFinset :=
    incorporateList_eq_filter s.manifest direct indirect hI
      (sortedEnum indirect) hl direct (Finset.Subset.refl _)
      Finset.subset_union_left
  have hFsub : ((sortedEnum indirect).filter
      (fun uid => promotes s.manifest direct uid)).toFinset ⊆ indirect := by
    intro a ha
    exact (mem_sortedEnum a indirect).mp
      (promotes_mem_indirect s.manifest direct (sortedEnum indirect) a ha)
  have hpass2 : incorporateList s.manifest
      (direct ∪ ((sortedEnum indirect).filter
        (fun uid => promotes s.manifest direct uid)).toFinset)
      (sortedEnum indirect) =
      (direct ∪ ((sortedEnum indirect).filter
        (fun uid => promotes s.manifest direct uid)).toFinset) ∪
        ((sortedEnum indirect).filter
          (fun uid => promotes s.manifest direct uid)).toFinset :=
    incorporateList_eq_filter s.manifest direct indirect hI
      (sortedEnum indirect) hl _
      Finset.subset_union_left
      (Finset.union_subset Finset.subset_union_left
        (hFsub.trans Finset.subset_union_right))
  unfold NodeSelector.incorporate_indirect_nodes
  rw [hpass1, hpass2, Finset.union_assoc, Finset.union_self]

theorem C4_idempotent_of_independent_witness :
    (∀ uid ∈ ({1, 2} : Finset UniqueId),
        ∀ p ∈ lookup_depends_on selFree.manifest uid,
          p ∈ ({1, 2} : Finset UniqueId) → p ∈ (∅ : Finset UniqueId)) ∧
      selFree.incorporate_indirect_nodes
          (selFree.incorporate_indirect_nodes ∅ {1, 2}) {1, 2} =
        selFree.incorporate_indirect_nodes ∅ {1, 2} :=
  ⟨by decide, C4_idempotent_of_independent selFree ∅ {1, 2} (by decide)⟩

/-- C5 counterexample: the same indirect set enumerated in two different
orders yields different results — processing parentless test 2 before test 1
(which depends on 2) promotes both, while the reverse order promotes only 2. -/
theorem C5_order_dependent_counterexample :
    ([2, 1] : List UniqueId).Perm [1, 2] ∧
      ¬ (incorporateList mTests ∅ [2, 1] = incorporateList mTests ∅ [1, 2]) := by
  constructor
  · decide
  · decide

/-- C5 (amended): the pass is enumeration-order independent whenever no
node of the enumerated indirect set depends on another member of that set
that is still outside `direct`. -/
theorem C5_order_independent_of_independent (m : Manifest)
    (direct : Finset UniqueId) (l1 l2 : List UniqueId)
    (hperm : l1.Perm l2)
    (hcond : ∀ uid ∈ l1, ∀ p ∈ lookup_depends_on m uid,
      p ∈ l1.toFinset → p ∈ direct) :
    incorporateList m direct l1 = incorporateList m direct l2 := by
  have hI : ∀ uid ∈ l1.toFinset, ∀ node,
      m.nodes.lookup uid = some node →
      ∀ p ∈ node.depends_on.nodes, p ∈ l1.toFinset → p ∈ direct := by
    intro uid hu node hm p hp hpi
    refine hcond uid (List.mem_toFinset.mp hu) p ?_ hpi
    unfold lookup_depends_on
    rw [hm]
    exact hp
  have h1 := incorporateList_eq_filter m direct l1.toFinset hI l1
    (fun u hu => List.mem_toFinset.mpr hu) direct (Finset.Subset.refl _)
    Finset.subset_union_left
  have h2 := incorporateList_eq_filter m direct l1.toFinset hI l2
    (fun u hu => List.mem_toFinset.mpr (hperm.mem_iff.mpr hu)) direct
    (Finset.Subset.refl _) Finset.subset_union_left
  rw [h1, h2]
  congr 1
  ext a
  simp only [List.mem_toFinset, List.mem_filter, hperm.mem_iff]

theorem C5_order_independent_of_independent_witness :
    ([1, 2] : List UniqueId).Perm [2, 1] ∧
      (∀ uid ∈ ([1, 2] : List UniqueId),
        ∀ p ∈ lookup_depends_on mFree uid,
          p ∈ ([1, 2] : List UniqueId).toFinset → p ∈ (∅ : Finset UniqueId)) ∧
      incorporateList mFree ∅ [1, 2] = incorporateList mFree ∅ [2, 1] :=
  ⟨by decide, by decide,
    C5_order_independent_of_independent mFree ∅ [1, 2] [2, 1] (by decide) (by decide)⟩

theorem mem_graph_is_member (s : NodeSelector) (v : UniqueId)
    (hv : v ∈ s.graph.nodes) : s.is_graph_member v = true := by
  unfold NodeSelector.graph Graph.subgraph Graph.nodes at hv
  have h2 := Finset.mem_inter.mp hv
  exact (Finset.mem_filter.mp h2.2).2

/-- C9 counterexample: the member subgraph built at construction contains an
exposure whose `enabled` flag is false — `_is_graph_member` admits every
exposure without consulting `enabled`. -/
theorem C9_disabled_exposure_counterexample :
    5 ∈ selDisabledExposure.graph.nodes ∧
      selDisabledExposure.manifest.exposures.lookup 5 =
        some { config := { enabled := false } } := by
  constructor
  · decide
  · rfl

/-- C9 (amended): every id in the final output of `get_selected` belongs to
the member subgraph built at selector construction, and that subgraph
contains only enabled sources, all exposures (enabled or not), and enabled
non-empty nodes. -/
theorem C9_output_in_member_subgraph (s : NodeSelector) (spec : SelectionSpec)
    (uid : UniqueId) (h : uid ∈ (s.get_selected spec).1) :
    uid ∈ s.graph.nodes ∧
      ∀ v ∈ s.graph.nodes,
        (∀ src, s.manifest.sources.lookup v = some src →
          src.config.enabled = true) ∧
        (s.manifest.sources.lookup v = none →
          s.manifest.exposures.lookup v = none →
          ∀ node, s.manifest.nodes.lookup v = some node →
            node.config.enabled = true ∧ node.empty = false) := by
  constructor
  · have h1 : (s.get_selected spec).1 =
        s.filter_selection (s.select_nodes spec).1.1 := rfl
    rw [h1] at h
    have h2 : uid ∈ (s.select_nodes spec).1.1 :=
      Finset.filter_subset _ _ h
    have h3 : (s.select_nodes spec).1.1 =
        (s.select_nodes_recursively spec).1.1 := rfl
    rw [h3] at h2
    exact (select_nodes_recursively_subset s spec).1 h2
  · intro v hv
    have hm := mem_graph_is_member s v hv
    unfold NodeSelector.is_graph_member at hm
    constructor
    · intro src hsrc
      rw [hsrc] at hm
      exact hm
    · intro hs he node hn
      rw [hs, he, hn] at hm
      have hm2 : (!node.empty && node.config.enabled) = true := hm
      rw [Bool.and_eq_true, Bool.not_eq_true'] at hm2
      exact ⟨hm2.2, hm2.1⟩

theorem C9_output_in_member_subgraph_witness :
    10 ∈ (selModel.get_selected specModel).1 ∧
      (10 ∈ selModel.graph.nodes ∧
        ∀ v ∈ selModel.graph.nodes,
          (∀ src, selModel.manifest.sources.lookup v = some src →
            src.config.enabled = true) ∧
          (selModel.manifest.sources.lookup v = none →
            selModel.manifest.exposures.lookup v = none →
            ∀ node, selModel.manifest.nodes.lookup v = some node →
              node.config.enabled = true ∧ node.empty = false)) :=
  ⟨by decide, C9_output_in_member_subgraph selModel specModel 10 (by decide)⟩

theorem SetHeap.read_write_self (h : SetHeap) (a : Nat) (v : Finset UniqueId)
    (ha : a < h.length) : (h.write a v).read a = v := by
  unfold SetHeap.read SetHeap.write
  rw [List.getElem?_set_self ha]
  rfl

theorem SetHeap.read_write_ne (h : SetHeap) (a b : Nat) (v : Finset UniqueId)
    (hab : a ≠ b) : (h.write a v).read b = h.read b := by
  unfold SetHeap.read SetHeap.write
  rw [List.getElem?_set_ne hab]

theorem SetHeap.read_append_lt (h : SetHeap) (v : Finset UniqueId) (a : Nat)
    (ha : a < h.length) : SetHeap.read (h ++ [v]) a = h.read a := by
  unfold SetHeap.read
  rw [List.getElem?_append_left ha]

theorem SetHeap.read_append_len (h : SetHeap) (v : Finset UniqueId) :
    SetHeap.read (h ++ [v]) h.length = v := by
  unfold SetHeap.read
  rw [List.getElem?_concat_length]
  rfl

theorem length_heapStep (m : Manifest) (selA : Nat) (hh : SetHeap)
    (uid : UniqueId) : (heapStep m selA hh uid).length = hh.length := by
  unfold heapStep
  cases m.nodes.lookup uid with
  | none => rfl
  | some node =>
    show (if depends_on_subset node (SetHeap.read hh selA) = true then
        SetHeap.write hh selA (insert uid (SetHeap.read hh selA))
      else hh).length = hh.length
    by_cases hd : depends_on_subset node (SetHeap.read hh selA) = true
    · rw [if_pos hd]
      exact List.length_set _ _ _
    · rw [if_neg hd]

theorem read_heapStep_ne (m : Manifest) (selA : Nat) (hh : SetHeap)
    (uid : UniqueId) (a : Nat) (ha : a ≠ selA) :
    SetHeap.read (heapStep m selA hh uid) a = SetHeap.read hh a := by
  unfold heapStep
  cases m.nodes.lookup uid with
  | none => rfl
  | some node =>
    show SetHeap.read (if depends_on_subset node (SetHeap.read hh selA) = true then
        SetHeap.write hh selA (insert uid (SetHeap.read hh selA))
      else hh) a = SetHeap.read hh a
    by_cases hd : depends_on_subset node (SetHeap.read hh selA) = true
    · rw [if_pos hd]
      exact SetHeap.read_write_ne hh selA a _ (fun hx => ha hx.symm)
    · rw [if_neg hd]

theorem read_heapStep_self (m : Manifest) (selA : Nat) (hh : SetHeap)
    (uid : UniqueId) (hlt : selA < hh.length) :
    SetHeap.read (heapStep m selA hh uid) selA =
      incorporateStep m (SetHeap.read hh selA) uid := by
  unfold heapStep incorporateStep
  cases m.nodes.lookup uid with
  | none => rfl
  | some node =>
    show SetHeap.read (if depends_on_subset node (SetHeap.read hh selA) = true then
        SetHeap.write hh selA (insert uid (SetHeap.read hh selA))
      else hh) selA =
      (if depends_on_subset node (SetHeap.read hh selA) = true then
        insert uid (SetHeap.read hh selA)
      else SetHeap.read hh selA)
    by_cases hd : depends_on_subset node (SetHeap.read hh selA) = true
    · rw [if_pos hd, if_pos hd]
      exact SetHeap.read_write_self hh selA _ hlt
    · rw [if_neg hd, if_neg hd]

theorem foldHeap_length (m : Manifest) (selA : Nat) :
    ∀ (order : List UniqueId) (hh : SetHeap),
      (order.foldl (heapStep m selA) hh).length = hh.length := by
  intro order
  induction order with
  | nil => intro hh; rfl
  | cons uid rest ih =>
    intro hh
    rw [List.foldl_cons, ih _, length_heapStep]

theorem foldHeap_read_ne (m : Manifest) (selA : Nat) (a : Nat) (ha : a ≠ selA) :
    ∀ (order : List UniqueId) (hh : SetHeap),
      SetHeap.read (order.foldl (heapStep m selA) hh) a = SetHeap.read hh a := by
  intro order
  induction order with
  | nil => intro hh; rfl
  | cons uid rest ih =>
    intro hh
    rw [List.foldl_cons, ih _, read_heapStep_ne m selA hh uid a ha]

theorem foldHeap_read_self (m : Manifest) (selA : Nat) :
    ∀ (order : List UniqueId) (hh : SetHeap), selA < hh.length →
      SetHeap.read (order.foldl (heapStep m selA) hh) selA =
        incorporateList m (SetHeap.read hh selA) order := by
  intro order
  induction order with
  | nil => intro hh _; rfl
  | cons uid rest ih =>
    intro hh hlt
    have hlt2 : selA < (heapStep m selA hh uid).length := by
      rw [length_heapStep]
      exact hlt
    rw [List.foldl_cons, ih _ hlt2, read_heapStep_self m selA hh uid hlt]
    rfl

/-- C10: at the store level, `incorporate_indirect_nodes` leaves every
previously allocated cell unchanged (in particular both of its arguments and
the shared default empty set), and returns a freshly allocated cell —
distinct from both argument addresses — holding the pass's result. -/
theorem C10_no_argument_mutation (m : Manifest) (h : SetHeap) (dA iA : Nat)
    (hd : dA < h.length) (hi : iA < h.length) :
    (∀ a, a < h.length →
      SetHeap.read (incorporate_indirect_nodes_heap m h dA iA).1 a =
        SetHeap.read h a) ∧
      (incorporate_indirect_nodes_heap m h dA iA).2 ≠ dA ∧
      (incorporate_indirect_nodes_heap m h dA iA).2 ≠ iA ∧
      SetHeap.read (incorporate_indirect_nodes_heap m h dA iA).1
          (incorporate_indirect_nodes_heap m h dA iA).2 =
        incorporateList m (SetHeap.read h dA)
          (sortedEnum (SetHeap.read h iA)) := by
  have hfst : (incorporate_indirect_nodes_heap m h dA iA).1 =
      (sortedEnum (SetHeap.read h iA)).foldl (heapStep m h.length)
        (h ++ [SetHeap.read h dA]) := rfl
  have hsnd : (incorporate_indirect_nodes_heap m h dA iA).2 = h.length := rfl
  refine ⟨?_, ?_, ?_, ?_⟩
  · intro a ha
    rw [hfst, foldHeap_read_ne m h.length a (Nat.ne_of_lt ha) _ _,
      SetHeap.read_append_lt h _ a ha]
  · rw [hsnd]
    exact Nat.ne_of_gt hd
  · rw [hsnd]
    exact Nat.ne_of_gt hi
  · have hlt : h.length < (h ++ [SetHeap.read h dA]).length := by
      rw [List.length_append, List.length_singleton]
      exact Nat.lt_succ_self _
    rw [hfst, hsnd, foldHeap_read_self m h.length _ _ hlt,
      SetHeap.read_append_len]

theorem C10_no_argument_mutation_witness :
    0 < heap2.length ∧ 1 < heap2.length ∧
      ((∀ a, a < heap2.length →
        SetHeap.read (incorporate_indirect_nodes_heap mTests heap2 0 1).1 a =
          SetHeap.read heap2 a) ∧
        (incorporate_indirect_nodes_heap mTests heap2 0 1).2 ≠ 0 ∧
        (incorporate_indirect_nodes_heap mTests heap2 0 1).2 ≠ 1 ∧
        SetHeap.read (incorporate_indirect_nodes_heap mTests heap2 0 1).1
            (incorporate_indirect_nodes_heap mTests heap2 0 1).2 =
          incorporateList mTests (SetHeap.read heap2 0)
            (sortedEnum (SetHeap.read heap2 1))) :=
  ⟨by decide, by decide,
    C10_no_argument_mutation mTests heap2 0 1 (by decide) (by decide)⟩
